import Mathlib

/-
Verification development for the ib-tws-mcp-server repository.

The repository adapts the event-driven Interactive Brokers TWS API into
discrete MCP tool calls.  The definitions below are shallow embeddings of
the relevant TypeScript functions:

* `checkRateLimit`, `getNextReqId`   — src/unnamed/part_002 lines 47-65
* `TWSConnection.connect`            — src/src/connection.ts lines 23-50
* `calculateAggregateGreeks`         — src/unnamed/part_003
* the per-operation event machines   — getQuote / getPositions /
  getAccountSummary / placeOrder / getOptionGreeks / getGreeksForPositions
  from src/unnamed/part_001, src/unnamed/part_002, src/unnamed/part_003,
  src/src/connection.ts and src/src/tools/orders.ts.

JavaScript numbers are modelled as ℚ (all values appearing in the claims
are exact in IEEE double arithmetic as well), timestamps from Date.now()
as ℤ (milliseconds), and string formatting (toFixed, account masking,
JSON serialisation) is elided since no claim depends on it.  Each
operation implemented as a Promise with `setTimeout` and event handlers
is modelled as a deterministic step function over an explicit state,
driven by a trace of happenings (incoming gateway events and the timer
expiry); JavaScript runs these callbacks atomically on one thread, so a
trace of atomic steps is the faithful semantics.  `resolve`/`reject` on a
Promise settles it only the first time; the model counts every settle
call (`settleCount`) and records only the first payload (`outcome`).
-/

deriving instance DecidableEq for Except

/-! ## Rate limiter and id allocator (src/unnamed/part_002 lines 47-65) -/

/-- CONFIG.MAX_REQUESTS_PER_SECOND in src/unnamed/part_002. -/
def MAX_REQUESTS_PER_SECOND : Nat := 40

/-- Embedding of `requestTimestamps.filter(ts => now - ts < 1000)`. -/
def pruneWindow (now : Int) (ts : List Int) : List Int :=
  ts.filter (fun t => now - t < 1000)

/-- Result of one `checkRateLimit()` call: whether the call returned
normally (`admitted`) and the value of `requestTimestamps` afterwards.
On the throwing path the pruned list has already been assigned back to
`requestTimestamps`, so the window is pruned but no timestamp is pushed. -/
structure RLResult where
  admitted : Bool
  window : List Int
  deriving Repr, DecidableEq

/-- Embedding of `checkRateLimit` (part_002 lines 47-59), with the ceiling
`N` as a parameter (the source fixes it to CONFIG.MAX_REQUESTS_PER_SECOND). -/
def checkRateLimit (N : Nat) (now : Int) (ts : List Int) : RLResult :=
  let pruned := pruneWindow now ts
  if N ≤ pruned.length then ⟨false, pruned⟩
  else ⟨true, pruned ++ [now]⟩

/-- State shared by `checkRateLimit` and `getNextReqId`: the module-level
variables `requestTimestamps` and `requestCounter` of part_002. -/
structure IdState where
  window : List Int
  counter : Nat
  deriving Repr, DecidableEq

/-- Embedding of `getNextReqId` (part_002 lines 62-65): `checkRateLimit()`
throws before `requestCounter++` executes, so a rejected admission returns
no id and leaves the counter unchanged. -/
def getNextReqId (N : Nat) (now : Int) (s : IdState) : Option Nat × IdState :=
  let r := checkRateLimit N now s.window
  if r.admitted then (some s.counter, ⟨r.window, s.counter + 1⟩)
  else (none, ⟨r.window, s.counter⟩)

/-- Run `getNextReqId` over a list of attempt times, collecting the ids
returned by the successful calls. -/
def runIds (N : Nat) : List Int → IdState → List Nat × IdState
  | [], s => ([], s)
  | now :: rest, s =>
    match getNextReqId N now s with
    | (some i, s1) =>
      let r := runIds N rest s1
      (i :: r.1, r.2)
    | (none, s1) => runIds N rest s1

/-! ## Connection manager (src/src/connection.ts lines 23-50) -/

namespace TWSConnection

/-- Outcome of a `connect()` call: it either returns normally or throws
the wrapped `Failed to connect to TWS` error. -/
inductive ConnResult where
  | ok
  | connectionError
  deriving Repr, DecidableEq

/-- Result of `connect()`: the outcome, the `connected` flag afterwards,
and whether `this.api.connect(...)` (the transport) was invoked at all. -/
structure ConnectOutcome where
  result : ConnResult
  connected : Bool
  transportCalled : Bool
  deriving Repr, DecidableEq

/-- Embedding of `TWSConnection.connect` (connection.ts lines 23-50).
`connected` is the field `this.connected` before the call; `transportOk`
models whether `await this.api.connect(...)` resolves or rejects.  When
already connected the method returns at once without touching the
transport; on transport rejection it clears `connected` and throws. -/
def connect (transportOk : Bool) (connected : Bool) : ConnectOutcome :=
  if connected then ⟨.ok, connected, false⟩
  else if transportOk then ⟨.ok, true, true⟩
  else ⟨.connectionError, false, true⟩

end TWSConnection

/-! ## Aggregate greeks (src/unnamed/part_003, calculateAggregateGreeks) -/

/-- Per-position greeks record as built by getGreeksForPositions: each
field is `null` (here `none`) when the raw event carried an out-of-range
sentinel value. -/
structure PosGreeks where
  delta : Option ℚ
  gamma : Option ℚ
  vega : Option ℚ
  theta : Option ℚ
  deriving Repr, DecidableEq

/-- Position entry as consumed by `calculateAggregateGreeks`: quantity
(`pos.position`), the contract multiplier (absent or zero falls back to
100 through JavaScript `||`), and the greeks record, absent when no
tickOptionComputation event arrived for the position. -/
structure PosEntry where
  position : ℚ
  multiplier : Option ℚ
  greeks : Option PosGreeks
  deriving Repr, DecidableEq

/-- JavaScript `x || 0` on a possibly-null number (0 is falsy, so both
null and 0 map to 0). -/
def orZero : Option ℚ → ℚ
  | none => 0
  | some v => v

/-- JavaScript `pos.contract.multiplier || 100` (null and 0 are falsy). -/
def multOr100 : Option ℚ → ℚ
  | none => 100
  | some m => if m = 0 then 100 else m

/-- Running totals of the four aggregates. -/
structure AggTotals where
  delta : ℚ
  gamma : ℚ
  vega : ℚ
  theta : ℚ
  deriving Repr, DecidableEq

/-- Loop body of `calculateAggregateGreeks` (the `for (const pos of
positions)` iteration): positions without a greeks record are skipped;
within a record each null field is replaced by 0 through `||`; delta and
gamma are weighted by position times multiplier, vega and theta by
position alone. -/
def aggStep (acc : AggTotals) (p : PosEntry) : AggTotals :=
  match p.greeks with
  | none => acc
  | some g =>
    let m := p.position * multOr100 p.multiplier
    { delta := acc.delta + orZero g.delta * m
      gamma := acc.gamma + orZero g.gamma * m
      vega := acc.vega + orZero g.vega * p.position
      theta := acc.theta + orZero g.theta * p.position }

/-- Embedding of `calculateAggregateGreeks` (part_003).  The trailing
`toFixed` formatting is elided. -/
def calculateAggregateGreeks (ps : List PosEntry) : AggTotals :=
  ps.foldl aggStep ⟨0, 0, 0, 0⟩

/-- Reference aggregate for the delta component in which an absent value
contributes no term at all: only positions whose greeks record is present
and whose delta field is present produce a summand. -/
def deltaTermsOnlyPresent (ps : List PosEntry) : ℚ :=
  (ps.filterMap (fun p => p.greeks.bind
    (fun g => g.delta.map (· * (p.position * multOr100 p.multiplier))))).sum

/-- Reference aggregate for the gamma component; absent values produce no
summand. -/
def gammaTermsOnlyPresent (ps : List PosEntry) : ℚ :=
  (ps.filterMap (fun p => p.greeks.bind
    (fun g => g.gamma.map (· * (p.position * multOr100 p.multiplier))))).sum

/-- Reference aggregate for the vega component; absent values produce no
summand. -/
def vegaTermsOnlyPresent (ps : List PosEntry) : ℚ :=
  (ps.filterMap (fun p => p.greeks.bind (fun g => g.vega.map (· * p.position)))).sum

/-- Reference aggregate for the theta component; absent values produce no
summand. -/
def thetaTermsOnlyPresent (ps : List PosEntry) : ℚ :=
  (ps.filterMap (fun p => p.greeks.bind (fun g => g.theta.map (· * p.position)))).sum

/-! ## Listener registry (src/unnamed/part_002 lines 78-101)

The `eventListenerCleanup` map of part_002 is keyed by the string
`eventName-reqId`; `addListener` installs the emitter listener and the
cleanup entry together and `cleanupListeners` removes both.  Event names
are modelled by a small inductive type. -/

/-- Event names used by the operations under study. -/
inductive EvName where
  | tickPrice
  | tickSize
  | position
  | positionEnd
  | accountSummary
  | accountSummaryEnd
  | openOrder
  | openOrderEnd
  | orderStatus
  | tickOptionComputation
  deriving Repr, DecidableEq

/-- Listener registry content relevant to one connection: one entry per
`eventName-reqId` cleanup key (each entry also stands for the matching
emitter listener, since part_002 adds and removes the two together). -/
abbrev Bindings := List (EvName × Nat)

/-- Embedding of `addListener` (part_002 lines 92-101): registers the
handler and records the cleanup entry under the key for `reqId`. -/
def addListener (eventName : EvName) (reqId : Nat) (b : Bindings) : Bindings :=
  b ++ [(eventName, reqId)]

/-- Embedding of `cleanupListeners` (part_002 lines 78-89): for each named
event, runs and deletes the cleanup entry stored under `reqId`, which
removes the emitter listener. -/
def cleanupListeners (eventNames : List EvName) (reqId : Nat) (b : Bindings) : Bindings :=
  b.filter (fun kv => !(kv.2 == reqId && eventNames.contains kv.1))

/-- Bindings scoped to a given correlation id. -/
def bindingsFor (reqId : Nat) (b : Bindings) : Bindings :=
  b.filter (fun kv => kv.2 == reqId)

/-- Settling a JavaScript Promise: `resolve`/`reject` keeps only the
first payload; later calls are counted by the models but change nothing. -/
def promiseSettle {α : Type} (prev : Option α) (out : α) : Option α :=
  match prev with
  | none => some out
  | some p => some p

/-! ## Scalar-quote operation, part_002 variant (getQuote, lines 469-555)

The getQuote tool of src/unnamed/part_002: two listeners scoped to the
ticker id, a 5000 ms timer whose expiry resolves with whatever has
accumulated, and a price handler that counts every bid/ask/last tick with
matching id and positive price (`priceReceived++`) and resolves when that
count reaches 3.  String formatting (`toFixed`) is elided. -/

namespace P2Quote

/-- Accumulated quote fields (the `quote` object of getQuote). -/
structure Quote where
  bid : Option ℚ
  ask : Option ℚ
  last : Option ℚ
  high : Option ℚ
  low : Option ℚ
  previousClose : Option ℚ
  bidSize : Option Int
  askSize : Option Int
  volume : Option Int
  spread : Option ℚ
  deriving Repr, DecidableEq

/-- Quote with no field populated yet (symbol and timestamp strings are
elided). -/
def Quote.empty : Quote := ⟨none, none, none, none, none, none, none, none, none, none⟩

/-- Happenings the operation reacts to: tagged gateway events dispatched
to the registered handlers and the expiry of the 5000 ms timer. -/
inductive Ev where
  | tickPrice (id : Nat) (tickType : Nat) (price : ℚ)
  | tickSize (id : Nat) (tickType : Nat) (size : Int)
  | timerFire
  deriving Repr, DecidableEq

/-- State of one getQuote operation. -/
structure St where
  quote : Quote
  priceReceived : Nat
  bindings : Bindings
  timeoutArmed : Bool
  subscribed : Bool
  settleCount : Nat
  outcome : Option Quote
  deriving Repr, DecidableEq

/-- State right after issuing the request: listeners bound, timer armed,
market-data subscription recorded in `activeSubscriptions`. -/
def init (tid : Nat) : St :=
  { quote := Quote.empty
    priceReceived := 0
    bindings := addListener .tickSize tid (addListener .tickPrice tid [])
    timeoutArmed := true
    subscribed := true
    settleCount := 0
    outcome := none }

/-- Switch of the priceHandler (part_002 lines 510-517): tick types 1, 2,
4 store bid/ask/last and increment `priceReceived`; 6, 7, 9 store
high/low/previousClose without incrementing; other types do nothing. -/
def priceUpd (q : Quote) (n : Nat) (t : Nat) (p : ℚ) : Quote × Nat :=
  if t = 1 then ({ q with bid := some p }, n + 1)
  else if t = 2 then ({ q with ask := some p }, n + 1)
  else if t = 4 then ({ q with last := some p }, n + 1)
  else if t = 6 then ({ q with high := some p }, n)
  else if t = 7 then ({ q with low := some p }, n)
  else if t = 9 then ({ q with previousClose := some p }, n)
  else (q, n)

/-- Switch of the sizeHandler (part_002 lines 540-548). -/
def sizeUpd (q : Quote) (t : Nat) (sz : Int) : Quote :=
  if t = 0 then { q with bidSize := some sz }
  else if t = 3 then { q with askSize := some sz }
  else if t = 8 then { q with volume := some sz }
  else q

/-- One atomic happening.  A handler runs only while its listener is
still registered; the timer callback runs only if the timeout is still
armed (`clearTimeout` not yet called, timer not yet fired). -/
def step (tid : Nat) (s : St) : Ev → St
  | .timerFire =>
    if s.timeoutArmed then
      { s with timeoutArmed := false
               subscribed := false
               bindings := cleanupListeners [.tickPrice, .tickSize] tid s.bindings
               settleCount := s.settleCount + 1
               outcome := promiseSettle s.outcome s.quote }
    else s
  | .tickPrice id t p =>
    if (EvName.tickPrice, tid) ∈ s.bindings then
      if id = tid ∧ 0 < p then
        let r := priceUpd s.quote s.priceReceived t p
        if 3 ≤ r.2 then
          let q2 := if r.1.bid.isSome ∧ r.1.ask.isSome
                    then { r.1 with spread := some (r.1.ask.getD 0 - r.1.bid.getD 0) }
                    else r.1
          { s with quote := q2
                   priceReceived := r.2
                   timeoutArmed := false
                   subscribed := false
                   bindings := cleanupListeners [.tickPrice, .tickSize] tid s.bindings
                   settleCount := s.settleCount + 1
                   outcome := promiseSettle s.outcome q2 }
        else { s with quote := r.1, priceReceived := r.2 }
      else s
    else s
  | .tickSize id t sz =>
    if (EvName.tickSize, tid) ∈ s.bindings then
      if id = tid then { s with quote := sizeUpd s.quote t sz }
      else s
    else s

/-- Run the operation over a trace of happenings. -/
def run (tid : Nat) (evs : List Ev) : St :=
  evs.foldl (step tid) (init tid)

/-- Operation not yet settled: listeners bound, timer armed, subscription
live, promise untouched. -/
def Pending (tid : Nat) (s : St) : Prop :=
  s.bindings = [(EvName.tickPrice, tid), (EvName.tickSize, tid)] ∧
  s.timeoutArmed = true ∧ s.subscribed = true ∧ s.settleCount = 0 ∧ s.outcome = none

/-- Operation settled exactly once, with all cleanup done. -/
def Resolved (s : St) : Prop :=
  s.bindings = [] ∧ s.timeoutArmed = false ∧ s.subscribed = false ∧
  s.settleCount = 1 ∧ s.outcome.isSome

end P2Quote

/-! ## Order-lifecycle operation, orders.ts variant (placeOrder, lines 74-126)

The placeOrder tool of src/src/tools/orders.ts: a 10000 ms timer that
rejects on expiry, an openOrder handler whose parameters `orderId` and
`order` shadow the outer bindings (so its guard compares the two fields
of the event itself), and an orderStatus handler that resolves on the
first status event carrying the operation's order id. -/

namespace PlaceOrder

/-- Data captured from the resolving orderStatus event. -/
structure StatusRec where
  orderId : Nat
  status : String
  filled : ℚ
  remaining : ℚ
  avgFillPrice : ℚ
  deriving Repr, DecidableEq

/-- Happenings: openOrder events (carrying the event's own `orderId`
parameter and the `orderId` field of the event's `order` object),
orderStatus events, and the timer expiry. -/
inductive Ev where
  | openOrder (id : Nat) (orderOrderId : Nat)
  | orderStatus (id : Nat) (status : String) (filled : ℚ) (remaining : ℚ) (avgFillPrice : ℚ)
  | timerFire
  deriving Repr, DecidableEq

/-- State of one placeOrder operation.  Both listeners are removed
together with `removeAllListeners` on every settlement path, so a single
flag models them. -/
structure St where
  orderDetails : Option (Nat × Nat)
  statusRec : Option StatusRec
  listenersBound : Bool
  timeoutArmed : Bool
  settleCount : Nat
  outcome : Option (Except Unit (StatusRec × Option (Nat × Nat)))
  deriving Repr, DecidableEq

/-- State right after `api.placeOrder` is sent. -/
def init : St := ⟨none, none, true, true, 0, none⟩

/-- One atomic happening for the orders.ts placeOrder operation. -/
def step (myOrderId : Nat) (s : St) : Ev → St
  | .timerFire =>
    if s.timeoutArmed then
      { s with timeoutArmed := false
               listenersBound := false
               settleCount := s.settleCount + 1
               outcome := promiseSettle s.outcome (.error ()) }
    else s
  | .openOrder id oid =>
    if s.listenersBound then
      if id = oid then { s with orderDetails := some (id, oid) } else s
    else s
  | .orderStatus id st f r a =>
    if s.listenersBound then
      if id = myOrderId then
        { s with statusRec := some ⟨id, st, f, r, a⟩
                 timeoutArmed := false
                 listenersBound := false
                 settleCount := s.settleCount + 1
                 outcome := promiseSettle s.outcome (.ok (⟨id, st, f, r, a⟩, s.orderDetails)) }
      else s
    else s

/-- Run the operation over a trace of happenings. -/
def run (myOrderId : Nat) (evs : List Ev) : St :=
  evs.foldl (step myOrderId) init

/-- Operation not yet settled. -/
def Pending (s : St) : Prop :=
  s.listenersBound = true ∧ s.timeoutArmed = true ∧ s.settleCount = 0 ∧ s.outcome = none

/-- Operation settled exactly once, with listeners removed and the timer
dead. -/
def Resolved (s : St) : Prop :=
  s.listenersBound = false ∧ s.timeoutArmed = false ∧ s.settleCount = 1 ∧ s.outcome.isSome

end PlaceOrder

/-! ## Scalar-quote operation, part_001 variant (getQuote, lines 26-101)

The getQuote tool of src/unnamed/part_001/marketdata: handlers registered
with bare `api.on` whose parameters shadow the outer `tickerId`, so no
event is filtered by id; `dataPoints` counts every bid/ask/last price
tick and every volume size tick; the terminal comparison against
`requiredDataPoints = 4` runs only inside the tickPrice handler; the
10000 ms timer resolves with the partial quote when `dataPoints > 0` and
rejects with the timeout error otherwise. -/

namespace P1Quote

/-- Accumulated quote fields. -/
structure Quote where
  bid : Option ℚ
  ask : Option ℚ
  last : Option ℚ
  high : Option ℚ
  low : Option ℚ
  previousClose : Option ℚ
  bidSize : Option Int
  askSize : Option Int
  lastSize : Option Int
  volume : Option Int
  deriving Repr, DecidableEq

/-- Quote with no field populated. -/
def Quote.empty : Quote := ⟨none, none, none, none, none, none, none, none, none, none⟩

/-- Happenings.  The events carry the ticker id the gateway tagged them
with, but the part_001 handlers shadow `tickerId` and never compare it. -/
inductive Ev where
  | tickPrice (id : Nat) (tickType : Nat) (price : ℚ)
  | tickSize (id : Nat) (tickType : Nat) (size : Int)
  | timerFire
  deriving Repr, DecidableEq

/-- State of one part_001 getQuote operation. -/
structure St where
  quote : Quote
  dataPoints : Nat
  listenersBound : Bool
  timeoutArmed : Bool
  settleCount : Nat
  outcome : Option (Except Unit Quote)
  deriving Repr, DecidableEq

/-- State right after `api.reqMktData` is sent. -/
def init : St := ⟨Quote.empty, 0, true, true, 0, none⟩

/-- Switch of the tickPrice handler: TickType BID = 1, ASK = 2, LAST = 4
increment `dataPoints`; HIGH = 6, LOW = 7, CLOSE = 9 store without
incrementing. -/
def priceUpd (q : Quote) (n : Nat) (t : Nat) (p : ℚ) : Quote × Nat :=
  if t = 1 then ({ q with bid := some p }, n + 1)
  else if t = 2 then ({ q with ask := some p }, n + 1)
  else if t = 4 then ({ q with last := some p }, n + 1)
  else if t = 6 then ({ q with high := some p }, n)
  else if t = 7 then ({ q with low := some p }, n)
  else if t = 9 then ({ q with previousClose := some p }, n)
  else (q, n)

/-- Switch of the tickSize handler: BID_SIZE = 0, ASK_SIZE = 3,
LAST_SIZE = 5 store; VOLUME = 8 stores and increments `dataPoints`, but
no terminal comparison runs in this handler. -/
def sizeUpd (q : Quote) (n : Nat) (t : Nat) (sz : Int) : Quote × Nat :=
  if t = 0 then ({ q with bidSize := some sz }, n)
  else if t = 3 then ({ q with askSize := some sz }, n)
  else if t = 5 then ({ q with lastSize := some sz }, n)
  else if t = 8 then ({ q with volume := some sz }, n + 1)
  else (q, n)

/-- One atomic happening for the part_001 getQuote operation. -/
def step (s : St) : Ev → St
  | .timerFire =>
    if s.timeoutArmed then
      { s with timeoutArmed := false
               listenersBound := false
               settleCount := s.settleCount + 1
               outcome := promiseSettle s.outcome
                 (if 0 < s.dataPoints then .ok s.quote else .error ()) }
    else s
  | .tickPrice _ t p =>
    if s.listenersBound then
      let r := priceUpd s.quote s.dataPoints t p
      if 4 ≤ r.2 then
        { s with quote := r.1
                 dataPoints := r.2
                 timeoutArmed := false
                 listenersBound := false
                 settleCount := s.settleCount + 1
                 outcome := promiseSettle s.outcome (.ok r.1) }
      else { s with quote := r.1, dataPoints := r.2 }
    else s
  | .tickSize _ t sz =>
    if s.listenersBound then
      let r := sizeUpd s.quote s.dataPoints t sz
      { s with quote := r.1, dataPoints := r.2 }
    else s

/-- Run the operation over a trace of happenings. -/
def run (evs : List Ev) : St :=
  evs.foldl step init

end P1Quote

/-! ## Scalar-quote operation for greeks (connection.ts, getOptionGreeks)

The getOptionGreeks tool bundled in src/src/connection.ts (options
section, lines 199-279): one tickOptionComputation handler whose
parameter shadows the outer `tickerId` (no id filtering); each field is
stored when it differs from the -1 sentinel; `dataReceived` counts every
event; terminal at `requiredData = 5`; the 10000 ms timer resolves with
partial greeks when `dataReceived > 0` and rejects otherwise. -/

namespace GreeksOp

/-- Accumulated greeks fields. -/
structure G where
  delta : Option ℚ
  gamma : Option ℚ
  vega : Option ℚ
  theta : Option ℚ
  impliedVolatility : Option ℚ
  underlyingPrice : Option ℚ
  optionPrice : Option ℚ
  deriving Repr, DecidableEq

/-- Greeks record with no field populated. -/
def G.empty : G := ⟨none, none, none, none, none, none, none⟩

/-- Happenings. -/
inductive Ev where
  | tickOptionComputation (id : Nat) (impliedVol delta optPrice pvDividend gamma vega theta undPrice : ℚ)
  | timerFire
  deriving Repr, DecidableEq

/-- State of one getOptionGreeks operation. -/
structure St where
  greeks : G
  dataReceived : Nat
  listenerBound : Bool
  timeoutArmed : Bool
  settleCount : Nat
  outcome : Option (Except Unit G)
  deriving Repr, DecidableEq

/-- State right after `api.reqMktData` is sent. -/
def init : St := ⟨G.empty, 0, true, true, 0, none⟩

/-- Field updates of the handler: each value is stored when it is not the
-1 sentinel. -/
def gUpd (g : G) (impliedVol delta optPrice gamma vega theta undPrice : ℚ) : G :=
  { delta := if delta ≠ -1 then some delta else g.delta
    gamma := if gamma ≠ -1 then some gamma else g.gamma
    vega := if vega ≠ -1 then some vega else g.vega
    theta := if theta ≠ -1 then some theta else g.theta
    impliedVolatility := if impliedVol ≠ -1 then some impliedVol else g.impliedVolatility
    underlyingPrice := if undPrice ≠ -1 then some undPrice else g.underlyingPrice
    optionPrice := if optPrice ≠ -1 then some optPrice else g.optionPrice }

/-- One atomic happening for the getOptionGreeks operation. -/
def step (s : St) : Ev → St
  | .timerFire =>
    if s.timeoutArmed then
      { s with timeoutArmed := false
               listenerBound := false
               settleCount := s.settleCount + 1
               outcome := promiseSettle s.outcome
                 (if 0 < s.dataReceived then .ok s.greeks else .error ()) }
    else s
  | .tickOptionComputation _ iv d op _pv ga ve th up =>
    if s.listenerBound then
      let g := gUpd s.greeks iv d op ga ve th up
      if 5 ≤ s.dataReceived + 1 then
        { s with greeks := g
                 dataReceived := s.dataReceived + 1
                 timeoutArmed := false
                 listenerBound := false
                 settleCount := s.settleCount + 1
                 outcome := promiseSettle s.outcome (.ok g) }
      else { s with greeks := g, dataReceived := s.dataReceived + 1 }
    else s

/-- Run the operation over a trace of happenings. -/
def run (evs : List Ev) : St :=
  evs.foldl step init

end GreeksOp

/-! ## Keyed-summary operation, part_002 variant (getAccountSummary, lines 407-467)

The getAccountSummary tool of src/unnamed/part_002: both handlers guard
on `id === reqId`; the accumulator is a JavaScript object keyed by tag
(existing keys are updated in place, new keys appended); resolution also
issues `cancelAccountSummary` to drop the server-side subscription.
The stored value (parsed/masked strings) is kept as the raw event
payload triple (account, value, currency); the parseFloat/toFixed and
account-masking formatting is elided. -/

/-- JavaScript object assignment `obj[k] = v`: an existing key keeps its
position and gets the new value, a new key is appended. -/
def upsert {β : Type} : List (String × β) → String → β → List (String × β)
  | [], k, v => [(k, v)]
  | (k0, v0) :: rest, k, v =>
    if k0 = k then (k, v) :: rest else (k0, v0) :: upsert rest k v

namespace P2Summary

/-- Payload stored under a tag: the event's account, value and currency. -/
abbrev Val := String × String × String

/-- Happenings. -/
inductive Ev where
  | accountSummary (id : Nat) (account tag value currency : String)
  | accountSummaryEnd (id : Nat)
  | timerFire
  deriving Repr, DecidableEq

/-- State of one part_002 getAccountSummary operation. -/
structure St where
  summary : List (String × Val)
  bindings : Bindings
  timeoutArmed : Bool
  subscribed : Bool
  settleCount : Nat
  outcome : Option (List (String × Val))
  deriving Repr, DecidableEq

/-- State right after `api.reqAccountSummary` is sent. -/
def init (reqId : Nat) : St :=
  { summary := []
    bindings := addListener .accountSummaryEnd reqId (addListener .accountSummary reqId [])
    timeoutArmed := true
    subscribed := true
    settleCount := 0
    outcome := none }

/-- One atomic happening for the part_002 getAccountSummary operation. -/
def step (reqId : Nat) (s : St) : Ev → St
  | .timerFire =>
    if s.timeoutArmed then
      { s with timeoutArmed := false
               subscribed := false
               bindings := cleanupListeners [.accountSummary, .accountSummaryEnd] reqId s.bindings
               settleCount := s.settleCount + 1
               outcome := promiseSettle s.outcome s.summary }
    else s
  | .accountSummary id account tag value currency =>
    if (EvName.accountSummary, reqId) ∈ s.bindings then
      if id = reqId then
        { s with summary := upsert s.summary tag (account, value, currency) }
      else s
    else s
  | .accountSummaryEnd id =>
    if (EvName.accountSummaryEnd, reqId) ∈ s.bindings then
      if id = reqId then
        { s with timeoutArmed := false
                 subscribed := false
                 bindings := cleanupListeners [.accountSummary, .accountSummaryEnd] reqId s.bindings
                 settleCount := s.settleCount + 1
                 outcome := promiseSettle s.outcome s.summary }
      else s
    else s

/-- Run the operation over a trace of happenings. -/
def run (reqId : Nat) (evs : List Ev) : St :=
  evs.foldl (step reqId) (init reqId)

/-- Operation not yet settled. -/
def Pending (reqId : Nat) (s : St) : Prop :=
  s.bindings = [(EvName.accountSummary, reqId), (EvName.accountSummaryEnd, reqId)] ∧
  s.timeoutArmed = true ∧ s.subscribed = true ∧ s.settleCount = 0 ∧ s.outcome = none

/-- Operation settled exactly once, with all cleanup done. -/
def Resolved (s : St) : Prop :=
  s.bindings = [] ∧ s.timeoutArmed = false ∧ s.subscribed = false ∧
  s.settleCount = 1 ∧ s.outcome.isSome

end P2Summary

/-! ## Keyed-summary operation, part_001 variant (getAccountSummary, lines 309-361)

The getAccountSummary tool of src/unnamed/part_001/portfolio: the
handler parameters shadow the outer `reqId`, so neither the summary
handler nor the end handler compares the event's id with the operation's
own id — every accountSummary event on the connection is merged and any
accountSummaryEnd event is terminal.  The stored value is the event's
(account, value, currency) triple, kept raw here as in the source. -/

namespace P1Summary

/-- Happenings (same event shapes as the part_002 variant). -/
inductive Ev where
  | accountSummary (id : Nat) (account tag value currency : String)
  | accountSummaryEnd (id : Nat)
  | timerFire
  deriving Repr, DecidableEq

/-- State of one part_001 getAccountSummary operation. -/
structure St where
  summary : List (String × P2Summary.Val)
  listenersBound : Bool
  timeoutArmed : Bool
  settleCount : Nat
  outcome : Option (Except Unit (List (String × P2Summary.Val)))
  deriving Repr, DecidableEq

/-- State right after `api.reqAccountSummary` is sent.  The operation's
own `reqId` appears nowhere in the handlers. -/
def init : St := ⟨[], true, true, 0, none⟩

/-- One atomic happening for the part_001 getAccountSummary operation:
no id comparison anywhere. -/
def step (s : St) : Ev → St
  | .timerFire =>
    if s.timeoutArmed then
      { s with timeoutArmed := false
               listenersBound := false
               settleCount := s.settleCount + 1
               outcome := promiseSettle s.outcome (.error ()) }
    else s
  | .accountSummary _ account tag value currency =>
    if s.listenersBound then
      { s with summary := upsert s.summary tag (account, value, currency) }
    else s
  | .accountSummaryEnd _ =>
    if s.listenersBound then
      { s with timeoutArmed := false
               listenersBound := false
               settleCount := s.settleCount + 1
               outcome := promiseSettle s.outcome (.ok s.summary) }
    else s

/-- Run one part_001 getAccountSummary operation over a trace.  The
first argument is the operation's own request id; it is unused by the
handlers (their parameters shadow it), which is the point under test. -/
def run (_reqId : Nat) (evs : List Ev) : St :=
  evs.foldl step init

end P1Summary

/-! ## Snapshot-list operation, part_002 variant (getPositions, lines 349-405)

The getPositions tool of src/unnamed/part_002: rows arrive as position
events (appended only when `pos !== 0`), any positionEnd event is
terminal (the event carries no request id), and the timer also resolves
with whatever rows accumulated.  Display formatting (`toFixed`,
marketValue) is elided; a row is kept as the event payload. -/

/-- Payload of one position event. -/
structure PosRow where
  account : String
  symbol : String
  secType : String
  pos : ℚ
  avgCost : ℚ
  deriving Repr, DecidableEq

namespace P2Positions

/-- Happenings. -/
inductive Ev where
  | position (r : PosRow)
  | positionEnd
  | timerFire
  deriving Repr, DecidableEq

/-- State of one part_002 getPositions operation. -/
structure St where
  positions : List PosRow
  bindings : Bindings
  timeoutArmed : Bool
  settleCount : Nat
  outcome : Option (List PosRow × Nat)
  deriving Repr, DecidableEq

/-- State right after `ib.reqPositions` is sent. -/
def init (reqId : Nat) : St :=
  { positions := []
    bindings := addListener .positionEnd reqId (addListener .position reqId [])
    timeoutArmed := true
    settleCount := 0
    outcome := none }

/-- One atomic happening for the part_002 getPositions operation. -/
def step (reqId : Nat) (s : St) : Ev → St
  | .timerFire =>
    if s.timeoutArmed then
      { s with timeoutArmed := false
               bindings := cleanupListeners [.position, .positionEnd] reqId s.bindings
               settleCount := s.settleCount + 1
               outcome := promiseSettle s.outcome (s.positions, s.positions.length) }
    else s
  | .position r =>
    if (EvName.position, reqId) ∈ s.bindings then
      if r.pos ≠ 0 then { s with positions := s.positions ++ [r] } else s
    else s
  | .positionEnd =>
    if (EvName.positionEnd, reqId) ∈ s.bindings then
      { s with timeoutArmed := false
               bindings := cleanupListeners [.position, .positionEnd] reqId s.bindings
               settleCount := s.settleCount + 1
               outcome := promiseSettle s.outcome (s.positions, s.positions.length) }
    else s

/-- Run the operation over a trace of happenings. -/
def run (reqId : Nat) (evs : List Ev) : St :=
  evs.foldl (step reqId) (init reqId)

/-- Operation not yet settled. -/
def Pending (reqId : Nat) (s : St) : Prop :=
  s.bindings = [(EvName.position, reqId), (EvName.positionEnd, reqId)] ∧
  s.timeoutArmed = true ∧ s.settleCount = 0 ∧ s.outcome = none

/-- Operation settled exactly once, with all cleanup done. -/
def Resolved (s : St) : Prop :=
  s.bindings = [] ∧ s.timeoutArmed = false ∧ s.settleCount = 1 ∧ s.outcome.isSome

end P2Positions

/-! ## Snapshot-list operation, part_001 variant (getPositions, lines 265-306)

The getPositions tool of src/unnamed/part_001/portfolio: every position
event is appended (no zero filter), any positionEnd event is terminal,
and the timer rejects with the timeout error.  The constant-zero
marketValue/PNL display fields of the pushed row are elided. -/

namespace P1Positions

/-- Happenings. -/
inductive Ev where
  | position (r : PosRow)
  | positionEnd
  | timerFire
  deriving Repr, DecidableEq

/-- State of one part_001 getPositions operation. -/
structure St where
  positions : List PosRow
  listenersBound : Bool
  timeoutArmed : Bool
  settleCount : Nat
  outcome : Option (Except Unit (List PosRow × Nat))
  deriving Repr, DecidableEq

/-- State right after `api.reqPositions` is sent. -/
def init : St := ⟨[], true, true, 0, none⟩

/-- One atomic happening for the part_001 getPositions operation. -/
def step (s : St) : Ev → St
  | .timerFire =>
    if s.timeoutArmed then
      { s with timeoutArmed := false
               listenersBound := false
               settleCount := s.settleCount + 1
               outcome := promiseSettle s.outcome (.error ()) }
    else s
  | .position r =>
    if s.listenersBound then { s with positions := s.positions ++ [r] } else s
  | .positionEnd =>
    if s.listenersBound then
      { s with timeoutArmed := false
               listenersBound := false
               settleCount := s.settleCount + 1
               outcome := promiseSettle s.outcome (.ok (s.positions, s.positions.length)) }
    else s

/-- Run the operation over a trace of happenings. -/
def run (evs : List Ev) : St :=
  evs.foldl step init

end P1Positions

/-! ## Order-lifecycle operation, part_002 variant (placeOrder, lines 647-777)

The placeOrder tool of src/unnamed/part_002: one orderStatus listener
registered for the order id, a 5000 ms timer resolving with a
"submitted" outcome, and a status handler resolving with the first
status event matching the order id.  Both settlement paths call
`cleanupListeners([orderStatus, openOrder], orderId)`. -/

namespace P2Order

/-- Resolution payload: the timer path reports the order as submitted;
the event path returns the raw status. -/
inductive Outcome where
  | submitted
  | statusRec (status : String) (filled remaining avgFillPrice : ℚ)
  deriving Repr, DecidableEq

/-- Happenings. -/
inductive Ev where
  | orderStatus (id : Nat) (status : String) (filled remaining avgFillPrice : ℚ)
  | timerFire
  deriving Repr, DecidableEq

/-- State of one part_002 placeOrder operation. -/
structure St where
  bindings : Bindings
  timeoutArmed : Bool
  settleCount : Nat
  outcome : Option Outcome
  deriving Repr, DecidableEq

/-- State right after `ib.placeOrder` is sent: only the orderStatus
listener is registered. -/
def init (orderId : Nat) : St :=
  { bindings := addListener .orderStatus orderId []
    timeoutArmed := true
    settleCount := 0
    outcome := none }

/-- One atomic happening for the part_002 placeOrder operation. -/
def step (orderId : Nat) (s : St) : Ev → St
  | .timerFire =>
    if s.timeoutArmed then
      { s with timeoutArmed := false
               bindings := cleanupListeners [.orderStatus, .openOrder] orderId s.bindings
               settleCount := s.settleCount + 1
               outcome := promiseSettle s.outcome .submitted }
    else s
  | .orderStatus id st f r a =>
    if (EvName.orderStatus, orderId) ∈ s.bindings then
      if id = orderId then
        { s with timeoutArmed := false
                 bindings := cleanupListeners [.orderStatus, .openOrder] orderId s.bindings
                 settleCount := s.settleCount + 1
                 outcome := promiseSettle s.outcome (.statusRec st f r a) }
      else s
    else s

/-- Run the operation over a trace of happenings. -/
def run (orderId : Nat) (evs : List Ev) : St :=
  evs.foldl (step orderId) (init orderId)

/-- Operation not yet settled. -/
def Pending (orderId : Nat) (s : St) : Prop :=
  s.bindings = [(EvName.orderStatus, orderId)] ∧
  s.timeoutArmed = true ∧ s.settleCount = 0 ∧ s.outcome = none

/-- Operation settled exactly once, with all cleanup done. -/
def Resolved (s : St) : Prop :=
  s.bindings = [] ∧ s.timeoutArmed = false ∧ s.settleCount = 1 ∧ s.outcome.isSome

end P2Order

/-! ## Greeks sub-request of getGreeksForPositions (src/unnamed/part_003)

Each per-position sub-request of `getGreeksForPositions` registers its
handler with `ib.once(EventName.tickOptionComputation, ...)`: the
listener is consumed by the first tickOptionComputation event on the
connection whatever its id, and is never tracked by the
`eventListenerCleanup` registry.  The 3000 ms timeout path calls only
`cancelMktData` and `resolve()` — it does not remove the once-listener. -/

namespace GreeksPos

/-- Greeks record written onto the position, after sentinel-to-absent
conversion (values outside (-2, 2) for the four greeks, or non-positive
for impliedVol and underlying price, become null). -/
structure GreeksRec where
  delta : Option ℚ
  gamma : Option ℚ
  vega : Option ℚ
  theta : Option ℚ
  impliedVol : Option ℚ
  underlyingPrice : Option ℚ
  deriving Repr, DecidableEq

/-- Happenings. -/
inductive Ev where
  | tickOptionComputation (id : Nat) (impliedVol delta optPrice pvDividend gamma vega theta undPrice : ℚ)
  | timerFire
  deriving Repr, DecidableEq

/-- State of one greeks sub-request. -/
structure St where
  onceBound : Bool
  mktDataActive : Bool
  timeoutArmed : Bool
  greeks : Option GreeksRec
  settleCount : Nat
  deriving Repr, DecidableEq

/-- State right after `ib.reqMktData` is sent. -/
def init : St := ⟨true, true, true, none, 0⟩

/-- Sentinel conversion of the handler body. -/
def convert (impliedVol delta gamma vega theta undPrice : ℚ) : GreeksRec :=
  { delta := if -2 < delta ∧ delta < 2 then some delta else none
    gamma := if -2 < gamma ∧ gamma < 2 then some gamma else none
    vega := if -2 < vega ∧ vega < 2 then some vega else none
    theta := if -2 < theta ∧ theta < 2 then some theta else none
    impliedVol := if 0 < impliedVol then some impliedVol else none
    underlyingPrice := if 0 < undPrice then some undPrice else none }

/-- One atomic happening for a greeks sub-request.  The timer expiry
cancels the market data and resolves but leaves the once-listener
registered; the first tickOptionComputation event consumes the
once-listener whatever its id, and only a matching id writes the greeks
and resolves. -/
def step (tid : Nat) (s : St) : Ev → St
  | .timerFire =>
    if s.timeoutArmed then
      { s with timeoutArmed := false
               mktDataActive := false
               settleCount := s.settleCount + 1 }
    else s
  | .tickOptionComputation id iv d _op _pv ga ve th up =>
    if s.onceBound then
      if id = tid then
        { s with onceBound := false
                 greeks := some (convert iv d ga ve th up)
                 timeoutArmed := false
                 mktDataActive := false
                 settleCount := s.settleCount + 1 }
      else { s with onceBound := false }
    else s

/-- Run the sub-request over a trace of happenings. -/
def run (tid : Nat) (evs : List Ev) : St :=
  evs.foldl (step tid) init

end GreeksPos

/-- Run repeated admission attempts through `checkRateLimit`, starting
from an empty window, returning each attempt's verdict and the final
window. -/
def admitRun (N : Nat) (times : List Int) : List Bool × List Int :=
  times.foldl
    (fun acc now =>
      let r := checkRateLimit N now acc.2
      (acc.1 ++ [r.admitted], r.window))
    ([], [])

/-! ## Proofs -/

namespace P2Quote

theorem q2_cleanup_pending (tid : Nat) :
    cleanupListeners [.tickPrice, .tickSize] tid
      [(EvName.tickPrice, tid), (EvName.tickSize, tid)] = [] := by
  simp [cleanupListeners]

theorem q2_step_resolved (tid : Nat) (s : St) (h : Resolved s) (e : Ev) :
    step tid s e = s := by
  obtain ⟨hb, ht, _, _, _⟩ := h
  cases e <;> simp [step, hb, ht]

theorem q2_step_ok (tid : Nat) (s : St) (e : Ev)
    (h : Pending tid s ∨ Resolved s) :
    Pending tid (step tid s e) ∨ Resolved (step tid s e) := by
  rcases h with h | h
  · obtain ⟨hb, ht, hs, hc, ho⟩ := h
    cases e with
    | timerFire =>
      right
      simp [step, ht, Resolved, hb, hs, hc, ho, q2_cleanup_pending, promiseSettle]
    | tickPrice id t p =>
      by_cases hm : id = tid ∧ 0 < p
      · by_cases h3 : 3 ≤ (priceUpd s.quote s.priceReceived t p).2
        · right
          simp [step, hb, hm, h3, Resolved, q2_cleanup_pending, hc, ho, promiseSettle]
        · left
          simp [step, hb, hm, h3, Pending, ht, hs, hc, ho]
      · left
        simp [step, hb, hm, Pending, ht, hs, hc, ho]
    | tickSize id t sz =>
      left
      by_cases hm : id = tid <;> simp [step, hb, hm, Pending, ht, hs, hc, ho]
  · right
    rw [q2_step_resolved tid s h e]
    exact h

theorem q2_foldl_ok (tid : Nat) (evs : List Ev) (s : St)
    (h : Pending tid s ∨ Resolved s) :
    Pending tid (evs.foldl (step tid) s) ∨ Resolved (evs.foldl (step tid) s) := by
  induction evs generalizing s with
  | nil => exact h
  | cons e rest ih => exact ih _ (q2_step_ok tid s e h)

theorem q2_init_pending (tid : Nat) : Pending tid (init tid) := by
  refine ⟨?_, rfl, rfl, rfl, rfl⟩
  simp [init, addListener]

theorem q2_run_ok (tid : Nat) (evs : List Ev) :
    Pending tid (run tid evs) ∨ Resolved (run tid evs) :=
  q2_foldl_ok tid evs (init tid) (Or.inl (q2_init_pending tid))

theorem q2_foldl_resolved (tid : Nat) (evs : List Ev) (s : St) (h : Resolved s) :
    evs.foldl (step tid) s = s := by
  induction evs with
  | nil => rfl
  | cons e rest ih => rw [List.foldl_cons, q2_step_resolved tid s h e, ih]

theorem q2_step_timer_resolves (tid : Nat) (s : St) (h : Pending tid s) :
    Resolved (step tid s .timerFire) := by
  obtain ⟨hb, ht, hs, hc, ho⟩ := h
  simp [step, ht, Resolved, hb, hs, hc, ho, q2_cleanup_pending, promiseSettle]

theorem q2_timer_in_trace_resolves (tid : Nat) (evs : List Ev)
    (h : Ev.timerFire ∈ evs) : Resolved (run tid evs) := by
  obtain ⟨l1, l2, rfl⟩ := List.append_of_mem h
  have h1 := q2_foldl_ok tid l1 (init tid) (Or.inl (q2_init_pending tid))
  have h2 : Resolved ((Ev.timerFire :: l2).foldl (step tid) (l1.foldl (step tid) (init tid))) := by
    rw [List.foldl_cons]
    rcases h1 with h1 | h1
    · have hr := q2_step_timer_resolves tid _ h1
      rw [q2_foldl_resolved tid l2 _ hr]
      exact hr
    · rw [q2_step_resolved tid _ h1, q2_foldl_resolved tid l2 _ h1]
      exact h1
  simpa [run, List.foldl_append] using h2

end P2Quote

namespace PlaceOrder

theorem po_step_resolved (oid : Nat) (s : St) (h : Resolved s) (e : Ev) :
    step oid s e = s := by
  obtain ⟨hb, ht, _, _⟩ := h
  cases e <;> simp [step, hb, ht]

theorem po_step_ok (oid : Nat) (s : St) (e : Ev)
    (h : Pending s ∨ Resolved s) :
    Pending (step oid s e) ∨ Resolved (step oid s e) := by
  rcases h with h | h
  · obtain ⟨hb, ht, hc, ho⟩ := h
    cases e with
    | timerFire =>
      right
      simp [step, ht, Resolved, hb, hc, ho, promiseSettle]
    | openOrder id oidEv =>
      left
      by_cases hm : id = oidEv <;> simp [step, hb, hm, Pending, ht, hc, ho]
    | orderStatus id st f r a =>
      by_cases hm : id = oid
      · right
        simp [step, hb, hm, Resolved, hc, ho, promiseSettle]
      · left
        simp [step, hb, hm, Pending, ht, hc, ho]
  · right
    rw [po_step_resolved oid s h e]
    exact h

theorem po_foldl_ok (oid : Nat) (evs : List Ev) (s : St)
    (h : Pending s ∨ Resolved s) :
    Pending (evs.foldl (step oid) s) ∨ Resolved (evs.foldl (step oid) s) := by
  induction evs generalizing s with
  | nil => exact h
  | cons e rest ih => exact ih _ (po_step_ok oid s e h)

theorem po_init_pending : Pending init := ⟨rfl, rfl, rfl, rfl⟩

theorem po_run_ok (oid : Nat) (evs : List Ev) :
    Pending (run oid evs) ∨ Resolved (run oid evs) :=
  po_foldl_ok oid evs init (Or.inl po_init_pending)

theorem po_foldl_resolved (oid : Nat) (evs : List Ev) (s : St) (h : Resolved s) :
    evs.foldl (step oid) s = s := by
  induction evs with
  | nil => rfl
  | cons e rest ih => rw [List.foldl_cons, po_step_resolved oid s h e, ih]

theorem po_step_timer_resolves (oid : Nat) (s : St) (h : Pending s) :
    Resolved (step oid s .timerFire) := by
  obtain ⟨hb, ht, hc, ho⟩ := h
  simp [step, ht, Resolved, hb, hc, ho, promiseSettle]

theorem po_timer_in_trace_resolves (oid : Nat) (evs : List Ev)
    (h : Ev.timerFire ∈ evs) : Resolved (run oid evs) := by
  obtain ⟨l1, l2, rfl⟩ := List.append_of_mem h
  have h1 := po_foldl_ok oid l1 init (Or.inl po_init_pending)
  have h2 : Resolved ((Ev.timerFire :: l2).foldl (step oid) (l1.foldl (step oid) init)) := by
    rw [List.foldl_cons]
    rcases h1 with h1 | h1
    · have hr := po_step_timer_resolves oid _ h1
      rw [po_foldl_resolved oid l2 _ hr]
      exact hr
    · rw [po_step_resolved oid _ h1, po_foldl_resolved oid l2 _ h1]
      exact h1
  simpa [run, List.foldl_append] using h2

end PlaceOrder

theorem mem_upsert {β : Type} (m : List (String × β)) (k : String) (v : β)
    (p : String × β) (h : p ∈ upsert m k v) : p = (k, v) ∨ p ∈ m := by
  induction m with
  | nil => simpa [upsert] using h
  | cons kv rest ih =>
    obtain ⟨k0, v0⟩ := kv
    by_cases he : k0 = k
    · simp only [upsert, he, if_pos] at h
      rcases List.mem_cons.mp h with h | h
      · exact Or.inl h
      · exact Or.inr (List.mem_cons_of_mem _ h)
    · simp only [upsert, he, if_neg, not_false_iff] at h
      rcases List.mem_cons.mp h with h | h
      · exact Or.inr (List.mem_cons.mpr (Or.inl h))
      · rcases ih h with h | h
        · exact Or.inl h
        · exact Or.inr (List.mem_cons_of_mem _ h)

namespace P2Summary

theorem sum2_cleanup_pending (reqId : Nat) :
    cleanupListeners [.accountSummary, .accountSummaryEnd] reqId
      [(EvName.accountSummary, reqId), (EvName.accountSummaryEnd, reqId)] = [] := by
  simp [cleanupListeners]

theorem sum2_step_resolved (reqId : Nat) (s : St) (h : Resolved s) (e : Ev) :
    step reqId s e = s := by
  obtain ⟨hb, ht, _, _, _⟩ := h
  cases e <;> simp [step, hb, ht]

theorem sum2_step_ok (reqId : Nat) (s : St) (e : Ev)
    (h : Pending reqId s ∨ Resolved s) :
    Pending reqId (step reqId s e) ∨ Resolved (step reqId s e) := by
  rcases h with h | h
  · obtain ⟨hb, ht, hs, hc, ho⟩ := h
    cases e with
    | timerFire =>
      right
      simp [step, ht, Resolved, hb, hs, hc, ho, sum2_cleanup_pending, promiseSettle]
    | accountSummary id account tag value currency =>
      left
      by_cases hm : id = reqId <;> simp [step, hb, hm, Pending, ht, hs, hc, ho]
    | accountSummaryEnd id =>
      by_cases hm : id = reqId
      · right
        simp [step, hb, hm, Resolved, sum2_cleanup_pending, hc, ho, promiseSettle]
      · left
        simp [step, hb, hm, Pending, ht, hs, hc, ho]
  · right
    rw [sum2_step_resolved reqId s h e]
    exact h

theorem sum2_foldl_ok (reqId : Nat) (evs : List Ev) (s : St)
    (h : Pending reqId s ∨ Resolved s) :
    Pending reqId (evs.foldl (step reqId) s) ∨ Resolved (evs.foldl (step reqId) s) := by
  induction evs generalizing s with
  | nil => exact h
  | cons e rest ih => exact ih _ (sum2_step_ok reqId s e h)

theorem sum2_init_pending (reqId : Nat) : Pending reqId (init reqId) := by
  refine ⟨?_, rfl, rfl, rfl, rfl⟩
  simp [init, addListener]

theorem sum2_run_ok (reqId : Nat) (evs : List Ev) :
    Pending reqId (run reqId evs) ∨ Resolved (run reqId evs) :=
  sum2_foldl_ok reqId evs (init reqId) (Or.inl (sum2_init_pending reqId))

theorem sum2_step_summary_mem (reqId : Nat) (s : St) (e : Ev) (p : String × Val)
    (hp : p ∈ (step reqId s e).summary) :
    p ∈ s.summary ∨ ∃ account value currency,
      p = (p.1, (account, value, currency)) ∧
      e = Ev.accountSummary reqId account p.1 value currency := by
  cases e with
  | timerFire =>
    by_cases ht : s.timeoutArmed <;> simp [step, ht] at hp <;> exact Or.inl hp
  | accountSummary id account tag value currency =>
    by_cases hbnd : (EvName.accountSummary, reqId) ∈ s.bindings
    · by_cases hm : id = reqId
      · simp only [step, hbnd, if_pos, hm, if_true] at hp
        rcases mem_upsert _ _ _ _ hp with h | h
        · right
          refine ⟨account, value, currency, ?_, ?_⟩
          · rw [h]
          · rw [hm]
            rw [h]
        · exact Or.inl h
      · simp [step, hbnd, hm] at hp
        exact Or.inl hp
    · simp [step, hbnd] at hp
      exact Or.inl hp
  | accountSummaryEnd id =>
    by_cases hbnd : (EvName.accountSummaryEnd, reqId) ∈ s.bindings
    · by_cases hm : id = reqId <;> simp [step, hbnd, hm] at hp <;> exact Or.inl hp
    · simp [step, hbnd] at hp
      exact Or.inl hp

theorem sum2_foldl_summary_mem (reqId : Nat) (evs : List Ev) (s : St) (p : String × Val)
    (hp : p ∈ (evs.foldl (step reqId) s).summary) :
    p ∈ s.summary ∨ ∃ account value currency,
      p = (p.1, (account, value, currency)) ∧
      Ev.accountSummary reqId account p.1 value currency ∈ evs := by
  induction evs generalizing s with
  | nil => exact Or.inl hp
  | cons e rest ih =>
    rw [List.foldl_cons] at hp
    rcases ih (step reqId s e) hp with h | h
    · rcases sum2_step_summary_mem reqId s e p h with h | ⟨account, value, currency, hpair, hev⟩
      · exact Or.inl h
      · right
        exact ⟨account, value, currency, hpair, by rw [hev]; exact List.mem_cons_self _ _⟩
    · obtain ⟨account, value, currency, hpair, hev⟩ := h
      right
      exact ⟨account, value, currency, hpair, List.mem_cons_of_mem _ hev⟩

end P2Summary

namespace P2Positions

theorem pos2_cleanup_pending (reqId : Nat) :
    cleanupListeners [.position, .positionEnd] reqId
      [(EvName.position, reqId), (EvName.positionEnd, reqId)] = [] := by
  simp [cleanupListeners]

theorem pos2_step_resolved (reqId : Nat) (s : St) (h : Resolved s) (e : Ev) :
    step reqId s e = s := by
  obtain ⟨hb, ht, _, _⟩ := h
  cases e <;> simp [step, hb, ht]

theorem pos2_step_ok (reqId : Nat) (s : St) (e : Ev)
    (h : Pending reqId s ∨ Resolved s) :
    Pending reqId (step reqId s e) ∨ Resolved (step reqId s e) := by
  rcases h with h | h
  · obtain ⟨hb, ht, hc, ho⟩ := h
    cases e with
    | timerFire =>
      right
      simp [step, ht, Resolved, hb, hc, ho, pos2_cleanup_pending, promiseSettle]
    | position r =>
      left
      by_cases hr : r.pos ≠ 0 <;> simp [step, hb, hr, Pending, ht, hc, ho]
    | positionEnd =>
      right
      simp [step, hb, Resolved, pos2_cleanup_pending, hc, ho, promiseSettle]
  · right
    rw [pos2_step_resolved reqId s h e]
    exact h

theorem pos2_foldl_ok (reqId : Nat) (evs : List Ev) (s : St)
    (h : Pending reqId s ∨ Resolved s) :
    Pending reqId (evs.foldl (step reqId) s) ∨ Resolved (evs.foldl (step reqId) s) := by
  induction evs generalizing s with
  | nil => exact h
  | cons e rest ih => exact ih _ (pos2_step_ok reqId s e h)

theorem pos2_init_pending (reqId : Nat) : Pending reqId (init reqId) := by
  refine ⟨?_, rfl, rfl, rfl⟩
  simp [init, addListener]

theorem pos2_run_ok (reqId : Nat) (evs : List Ev) :
    Pending reqId (run reqId evs) ∨ Resolved (run reqId evs) :=
  pos2_foldl_ok reqId evs (init reqId) (Or.inl (pos2_init_pending reqId))

theorem pos2_foldl_rows (reqId : Nat) (rows : List PosRow) (s : St)
    (hb : s.bindings = [(EvName.position, reqId), (EvName.positionEnd, reqId)]) :
    (rows.map Ev.position).foldl (step reqId) s
      = { s with positions := s.positions ++ rows.filter (fun r => r.pos ≠ 0) } := by
  induction rows generalizing s with
  | nil => simp
  | cons r rest ih =>
    by_cases hr : r.pos ≠ 0
    · have hstep : step reqId s (Ev.position r) = { s with positions := s.positions ++ [r] } := by
        simp [step, hb, hr]
      rw [List.map_cons, List.foldl_cons, hstep, ih _ (by simp [hb])]
      simp [hr, List.filter_cons]
    · have hstep : step reqId s (Ev.position r) = s := by
        simp [step, hb, hr]
      rw [List.map_cons, List.foldl_cons, hstep, ih _ hb]
      simp [hr, List.filter_cons]

theorem pos2_snapshot (reqId : Nat) (rows : List PosRow) :
    (run reqId (rows.map Ev.position ++ [Ev.positionEnd])).outcome
      = some (rows.filter (fun r => r.pos ≠ 0),
              (rows.filter (fun r => r.pos ≠ 0)).length) := by
  have hinit : (init reqId).bindings
      = [(EvName.position, reqId), (EvName.positionEnd, reqId)] := by
    simp [init, addListener]
  rw [run, List.foldl_append, pos2_foldl_rows reqId rows (init reqId) hinit]
  simp [step, init, addListener, promiseSettle]

end P2Positions

namespace P1Positions

theorem pos1_foldl_rows (rows : List PosRow) (s : St)
    (hb : s.listenersBound = true) :
    (rows.map Ev.position).foldl step s
      = { s with positions := s.positions ++ rows } := by
  induction rows generalizing s with
  | nil => simp
  | cons r rest ih =>
    have hstep : step s (Ev.position r) = { s with positions := s.positions ++ [r] } := by
      simp [step, hb]
    rw [List.map_cons, List.foldl_cons, hstep, ih _ (by simp [hb])]
    simp

theorem pos1_snapshot (rows : List PosRow) :
    (run (rows.map Ev.position ++ [Ev.positionEnd])).outcome
      = some (.ok (rows, rows.length)) := by
  rw [run, List.foldl_append, pos1_foldl_rows rows init rfl]
  simp [step, init, promiseSettle]

end P1Positions

namespace P2Order

theorem ord2_cleanup_pending (orderId : Nat) :
    cleanupListeners [.orderStatus, .openOrder] orderId
      [(EvName.orderStatus, orderId)] = [] := by
  simp [cleanupListeners]

theorem ord2_step_resolved (orderId : Nat) (s : St) (h : Resolved s) (e : Ev) :
    step orderId s e = s := by
  obtain ⟨hb, ht, _, _⟩ := h
  cases e <;> simp [step, hb, ht]

theorem ord2_step_ok (orderId : Nat) (s : St) (e : Ev)
    (h : Pending orderId s ∨ Resolved s) :
    Pending orderId (step orderId s e) ∨ Resolved (step orderId s e) := by
  rcases h with h | h
  · obtain ⟨hb, ht, hc, ho⟩ := h
    cases e with
    | timerFire =>
      right
      simp [step, ht, Resolved, hb, hc, ho, ord2_cleanup_pending, promiseSettle]
    | orderStatus id st f r a =>
      by_cases hm : id = orderId
      · right
        simp [step, hb, hm, Resolved, ord2_cleanup_pending, hc, ho, promiseSettle]
      · left
        simp [step, hb, hm, Pending, ht, hc, ho]
  · right
    rw [ord2_step_resolved orderId s h e]
    exact h

theorem ord2_foldl_ok (orderId : Nat) (evs : List Ev) (s : St)
    (h : Pending orderId s ∨ Resolved s) :
    Pending orderId (evs.foldl (step orderId) s) ∨
      Resolved (evs.foldl (step orderId) s) := by
  induction evs generalizing s with
  | nil => exact h
  | cons e rest ih => exact ih _ (ord2_step_ok orderId s e h)

theorem ord2_init_pending (orderId : Nat) : Pending orderId (init orderId) := by
  refine ⟨?_, rfl, rfl, rfl⟩
  simp [init, addListener]

theorem ord2_run_ok (orderId : Nat) (evs : List Ev) :
    Pending orderId (run orderId evs) ∨ Resolved (run orderId evs) :=
  ord2_foldl_ok orderId evs (init orderId) (Or.inl (ord2_init_pending orderId))

end P2Order

theorem length_filter_lt_of_mem {α : Type} (l : List α) (p : α → Bool) (a : α)
    (ha : a ∈ l) (hpa : p a = false) : (l.filter p).length < l.length := by
  induction l with
  | nil => cases ha
  | cons b rest ih =>
    rcases List.mem_cons.mp ha with rfl | ha2
    · simp only [List.filter_cons, hpa, List.length_cons]
      exact Nat.lt_succ_of_le (List.length_filter_le p rest)
    · by_cases hb : p b
      · simp only [List.filter_cons, hb, if_pos, List.length_cons]
        exact Nat.succ_lt_succ (ih ha2)
      · simp only [List.filter_cons, hb, if_neg, Bool.false_eq_true, not_false_iff,
          List.length_cons]
        exact Nat.lt_succ_of_lt (ih ha2)

theorem foldl_aggStep_delta (ps : List PosEntry) (acc : AggTotals) :
    (ps.foldl aggStep acc).delta = acc.delta + deltaTermsOnlyPresent ps := by
  induction ps generalizing acc with
  | nil => simp [deltaTermsOnlyPresent]
  | cons p rest ih =>
    rw [List.foldl_cons, ih]
    cases hg : p.greeks with
    | none => simp [aggStep, hg, deltaTermsOnlyPresent]
    | some g =>
      cases hv : g.delta with
      | none =>
        simp [aggStep, hg, hv, deltaTermsOnlyPresent, orZero]
      | some v =>
        simp [aggStep, hg, hv, deltaTermsOnlyPresent, orZero]
        ring

theorem foldl_aggStep_gamma (ps : List PosEntry) (acc : AggTotals) :
    (ps.foldl aggStep acc).gamma = acc.gamma + gammaTermsOnlyPresent ps := by
  induction ps generalizing acc with
  | nil => simp [gammaTermsOnlyPresent]
  | cons p rest ih =>
    rw [List.foldl_cons, ih]
    cases hg : p.greeks with
    | none => simp [aggStep, hg, gammaTermsOnlyPresent]
    | some g =>
      cases hv : g.gamma with
      | none =>
        simp [aggStep, hg, hv, gammaTermsOnlyPresent, orZero]
      | some v =>
        simp [aggStep, hg, hv, gammaTermsOnlyPresent, orZero]
        ring

theorem foldl_aggStep_vega (ps : List PosEntry) (acc : AggTotals) :
    (ps.foldl aggStep acc).vega = acc.vega + vegaTermsOnlyPresent ps := by
  induction ps generalizing acc with
  | nil => simp [vegaTermsOnlyPresent]
  | cons p rest ih =>
    rw [List.foldl_cons, ih]
    cases hg : p.greeks with
    | none => simp [aggStep, hg, vegaTermsOnlyPresent]
    | some g =>
      cases hv : g.vega with
      | none =>
        simp [aggStep, hg, hv, vegaTermsOnlyPresent, orZero]
      | some v =>
        simp [aggStep, hg, hv, vegaTermsOnlyPresent, orZero]
        ring

theorem foldl_aggStep_theta (ps : List PosEntry) (acc : AggTotals) :
    (ps.foldl aggStep acc).theta = acc.theta + thetaTermsOnlyPresent ps := by
  induction ps generalizing acc with
  | nil => simp [thetaTermsOnlyPresent]
  | cons p rest ih =>
    rw [List.foldl_cons, ih]
    cases hg : p.greeks with
    | none => simp [aggStep, hg, thetaTermsOnlyPresent]
    | some g =>
      cases hv : g.theta with
      | none =>
        simp [aggStep, hg, hv, thetaTermsOnlyPresent, orZero]
      | some v =>
        simp [aggStep, hg, hv, thetaTermsOnlyPresent, orZero]
        ring

theorem getNextReqId_cases (N : Nat) (now : Int) (s : IdState) :
    getNextReqId N now s
        = (some s.counter, ⟨(checkRateLimit N now s.window).window, s.counter + 1⟩) ∨
    getNextReqId N now s
        = (none, ⟨(checkRateLimit N now s.window).window, s.counter⟩) := by
  unfold getNextReqId
  by_cases h : (checkRateLimit N now s.window).admitted <;> simp [h]

/-- C6: with rate-limit ceiling `N` per second, `checkRateLimit` prunes
the window to entries younger than 1 second before deciding; an attempt
arriving while `N` in-window timestamps are recorded is rejected and
records no timestamp (the window keeps exactly its pruned entries); once
the rolling window has slid past at least one recorded timestamp of a
full window, the next attempt is admitted.  The final conjunct runs 41
attempts in the same second against the source ceiling of 40: the first
40 are admitted and the 41st rejected. -/
theorem rate_limit_rolling_window (N : Nat) (now : Int) (ts : List Int) :
    (N ≤ (pruneWindow now ts).length →
      checkRateLimit N now ts = ⟨false, pruneWindow now ts⟩) ∧
    ((pruneWindow now ts).length < N →
      checkRateLimit N now ts = ⟨true, pruneWindow now ts ++ [now]⟩) ∧
    (ts.length ≤ N → (∃ t ∈ ts, 1000 ≤ now - t) →
      (checkRateLimit N now ts).admitted = true) ∧
    (admitRun MAX_REQUESTS_PER_SECOND (List.replicate 41 (0 : Int))).1
      = List.replicate 40 true ++ [false] := by
  refine ⟨?_, ?_, ?_, ?_⟩
  · intro h
    simp [checkRateLimit, h]
  · intro h
    simp [checkRateLimit, Nat.not_le.mpr h]
  · intro hlen ⟨t, htmem, hstale⟩
    have hfalse : (decide (now - t < 1000)) = false := by
      simp [Int.not_lt.mpr hstale]
    have hlt : (pruneWindow now ts).length < ts.length :=
      length_filter_lt_of_mem ts _ t htmem hfalse
    have : (pruneWindow now ts).length < N := Nat.lt_of_lt_of_le hlt hlen
    simp [checkRateLimit, Nat.not_le.mpr this]
  · decide

/-- C6 witness: with ceiling 1, a full window at time 0 rejects the
attempt at time 500 without recording it, and once the second has passed
the attempt at time 1000 is admitted. -/
theorem rate_limit_rolling_window_witness :
    checkRateLimit 1 500 [0] = ⟨false, pruneWindow 500 [0]⟩ ∧
    (checkRateLimit 1 1000 [0]).admitted = true := by
  constructor
  · exact (rate_limit_rolling_window 1 500 [0]).1 (by decide)
  · exact (rate_limit_rolling_window 1 1000 [0]).2.2.1 (by decide)
      ⟨0, by decide, by decide⟩

/-- C8: in `calculateAggregateGreeks` every absent value is excluded from
its aggregate: each of the four totals equals the sum over only the
positions whose value is present (an absent value contributes no term,
and the fold never fails on one).  Concretely, vega values
[0.5, absent, 0.3] over quantities [10, 10, 10] aggregate to exactly
0.5 * 10 + 0.3 * 10 = 8. -/
theorem aggregate_excludes_absent (ps : List PosEntry) :
    (calculateAggregateGreeks ps).delta = deltaTermsOnlyPresent ps ∧
    (calculateAggregateGreeks ps).gamma = gammaTermsOnlyPresent ps ∧
    (calculateAggregateGreeks ps).vega = vegaTermsOnlyPresent ps ∧
    (calculateAggregateGreeks ps).theta = thetaTermsOnlyPresent ps ∧
    (calculateAggregateGreeks
        [⟨10, none, some ⟨none, none, some (1/2), none⟩⟩,
         ⟨10, none, some ⟨none, none, none, none⟩⟩,
         ⟨10, none, some ⟨none, none, some (3/10), none⟩⟩]).vega = 8 := by
  refine ⟨?_, ?_, ?_, ?_, ?_⟩
  · rw [calculateAggregateGreeks, foldl_aggStep_delta]
    ring
  · rw [calculateAggregateGreeks, foldl_aggStep_gamma]
    ring
  · rw [calculateAggregateGreeks, foldl_aggStep_vega]
    ring
  · rw [calculateAggregateGreeks, foldl_aggStep_theta]
    ring
  · norm_num [calculateAggregateGreeks, aggStep, orZero]

/-- C9 counterexample: calling `connect` while already connected does not
fail with a connection error — it silently succeeds, returning without
invoking the transport. -/
theorem connect_when_connected_silently_succeeds :
    TWSConnection.connect true true
      = ⟨TWSConnection.ConnResult.ok, true, false⟩ ∧
    (TWSConnection.connect true true).result
      ≠ TWSConnection.ConnResult.connectionError := by
  decide

/-- C9 (amended): calling `connect` while already connected returns
successfully without establishing a second session (the transport is not
invoked); when not connected, the transport is invoked and a transport
rejection yields the connection error with `connected` cleared; there is
no in-flight guard beyond the `connected` flag. -/
theorem connect_behaviour (tok c : Bool) :
    (c = true →
      TWSConnection.connect tok c = ⟨TWSConnection.ConnResult.ok, true, false⟩) ∧
    (c = false → tok = true →
      TWSConnection.connect tok c = ⟨TWSConnection.ConnResult.ok, true, true⟩) ∧
    (c = false → tok = false →
      TWSConnection.connect tok c
        = ⟨TWSConnection.ConnResult.connectionError, false, true⟩) := by
  cases tok <;> cases c <;> simp [TWSConnection.connect]

/-- C9 witness: the already-connected call and the rejected-transport
call, concretely. -/
theorem connect_behaviour_witness :
    TWSConnection.connect true true = ⟨TWSConnection.ConnResult.ok, true, false⟩ ∧
    TWSConnection.connect false false
      = ⟨TWSConnection.ConnResult.connectionError, false, true⟩ :=
  ⟨(connect_behaviour true true).1 rfl, (connect_behaviour false false).2.2 rfl rfl⟩

/-- C10: a rejected rate-limit admission allocates no request id —
`getNextReqId` throws before `requestCounter++` runs, so the counter is
unchanged and no id is returned — and over any sequence of attempts the
ids actually returned are the consecutive integers starting at the
counter's initial value, with no gaps from rejected attempts. -/
theorem rejected_admission_allocates_no_id
    (N : Nat) (now : Int) (s : IdState) (ts : List Int) :
    ((checkRateLimit N now s.window).admitted = false →
      (getNextReqId N now s).1 = none ∧
      (getNextReqId N now s).2.counter = s.counter) ∧
    (runIds N ts s).1 = List.range' s.counter (runIds N ts s).1.length := by
  constructor
  · intro h
    simp [getNextReqId, h]
  · induction ts generalizing s with
    | nil => simp [runIds]
    | cons now0 rest ih =>
      rcases getNextReqId_cases N now0 s with h | h
      · rw [runIds, h]
        simp only [List.length_cons, List.range'_succ]
        exact congrArg (s.counter :: ·) (ih _)
      · rw [runIds, h]
        exact ih _

/-- C10 witness: with ceiling 1 and a full window, the attempt at time 0
is rejected, returns no id and leaves the counter at 5. -/
theorem rejected_admission_allocates_no_id_witness :
    (getNextReqId 1 0 ⟨[0], 5⟩).1 = none ∧
    (getNextReqId 1 0 ⟨[0], 5⟩).2.counter = 5 :=
  (rejected_admission_allocates_no_id 1 0 ⟨[0], 5⟩ []).1 (by decide)

/-- C1: exactly-once resolution for the correlated request operations
(part_002 getQuote and orders.ts placeOrder): over every trace of
incoming events and timer expiries the promise settles at most once; if
the timer expiry occurs in the trace the operation ends settled exactly
once (whichever of terminal event and timeout came first in the trace
settled it); and once resolution has begun, any further happening —
including a late terminal event — leaves the state completely unchanged
(no re-resolution, no repeated cleanup). -/
theorem exactly_once_resolution (tid oid : Nat)
    (evs : List P2Quote.Ev) (evs2 : List PlaceOrder.Ev) :
    ((P2Quote.run tid evs).settleCount ≤ 1 ∧
      (P2Quote.Ev.timerFire ∈ evs → (P2Quote.run tid evs).settleCount = 1) ∧
      (∀ e, 0 < (P2Quote.run tid evs).settleCount →
        P2Quote.step tid (P2Quote.run tid evs) e = P2Quote.run tid evs)) ∧
    ((PlaceOrder.run oid evs2).settleCount ≤ 1 ∧
      (PlaceOrder.Ev.timerFire ∈ evs2 → (PlaceOrder.run oid evs2).settleCount = 1) ∧
      (∀ e, 0 < (PlaceOrder.run oid evs2).settleCount →
        PlaceOrder.step oid (PlaceOrder.run oid evs2) e = PlaceOrder.run oid evs2)) := by
  refine ⟨⟨?_, ?_, ?_⟩, ⟨?_, ?_, ?_⟩⟩
  · rcases P2Quote.q2_run_ok tid evs with h | h
    · have := h.2.2.2.1
      omega
    · have := h.2.2.2.1
      omega
  · intro hmem
    exact (P2Quote.q2_timer_in_trace_resolves tid evs hmem).2.2.2.1
  · intro e hpos
    rcases P2Quote.q2_run_ok tid evs with h | h
    · exfalso
      have := h.2.2.2.1
      omega
    · exact P2Quote.q2_step_resolved tid _ h e
  · rcases PlaceOrder.po_run_ok oid evs2 with h | h
    · have := h.2.2.1
      omega
    · have := h.2.2.1
      omega
  · intro hmem
    exact (PlaceOrder.po_timer_in_trace_resolves oid evs2 hmem).2.2.1
  · intro e hpos
    rcases PlaceOrder.po_run_ok oid evs2 with h | h
    · exfalso
      have := h.2.2.1
      omega
    · exact PlaceOrder.po_step_resolved oid _ h e

/-- C1 witness: a timer expiry settles each operation exactly once, and a
further timer expiry after resolution is a no-op. -/
theorem exactly_once_resolution_witness :
    (P2Quote.run 1 [P2Quote.Ev.timerFire]).settleCount = 1 ∧
    PlaceOrder.step 2 (PlaceOrder.run 2 [PlaceOrder.Ev.timerFire]) PlaceOrder.Ev.timerFire
      = PlaceOrder.run 2 [PlaceOrder.Ev.timerFire] := by
  constructor
  · exact (exactly_once_resolution 1 2 [P2Quote.Ev.timerFire] []).1.2.1
      (List.mem_singleton_self _)
  · exact (exactly_once_resolution 1 2 [] [PlaceOrder.Ev.timerFire]).2.2.2
      PlaceOrder.Ev.timerFire (by decide)

/-- C2 counterexample: a getGreeksForPositions sub-request that resolves
by timeout leaves its once-listener — the binding registered on behalf of
its ticker id — still attached: the timeout path cancels the market data
and resolves but never removes the listener. -/
theorem listener_leak_on_greeks_timeout :
    (GreeksPos.run 3 [GreeksPos.Ev.timerFire]).settleCount = 1 ∧
    (GreeksPos.run 3 [GreeksPos.Ev.timerFire]).onceBound = true := by
  decide

/-- C2 (amended): for the part_002 operations that register their
handlers through addListener/cleanupListeners — scalar-quote (getQuote),
snapshot-list (getPositions), keyed-summary (getAccountSummary) and
order-lifecycle (placeOrder) — once the operation has settled, by
terminal event or by timeout, no binding scoped to its correlation id
remains in the registry.  The getGreeksForPositions helper of part_003 is
the exception: its once-listener survives a timeout resolution. -/
theorem resolved_ops_leave_no_bindings (tid rid sid oid : Nat)
    (e1 : List P2Quote.Ev) (e2 : List P2Positions.Ev)
    (e3 : List P2Summary.Ev) (e4 : List P2Order.Ev) :
    (0 < (P2Quote.run tid e1).settleCount →
      bindingsFor tid (P2Quote.run tid e1).bindings = []) ∧
    (0 < (P2Positions.run rid e2).settleCount →
      bindingsFor rid (P2Positions.run rid e2).bindings = []) ∧
    (0 < (P2Summary.run sid e3).settleCount →
      bindingsFor sid (P2Summary.run sid e3).bindings = []) ∧
    (0 < (P2Order.run oid e4).settleCount →
      bindingsFor oid (P2Order.run oid e4).bindings = []) := by
  refine ⟨?_, ?_, ?_, ?_⟩
  · intro hpos
    rcases P2Quote.q2_run_ok tid e1 with h | h
    · exfalso
      have := h.2.2.2.1
      omega
    · simp [bindingsFor, h.1]
  · intro hpos
    rcases P2Positions.pos2_run_ok rid e2 with h | h
    · exfalso
      have := h.2.2.1
      omega
    · simp [bindingsFor, h.1]
  · intro hpos
    rcases P2Summary.sum2_run_ok sid e3 with h | h
    · exfalso
      have := h.2.2.2.1
      omega
    · simp [bindingsFor, h.1]
  · intro hpos
    rcases P2Order.ord2_run_ok oid e4 with h | h
    · exfalso
      have := h.2.2.1
      omega
    · simp [bindingsFor, h.1]

/-- C2 witness: concrete settled runs of the four operation families end
with no binding scoped to their ids. -/
theorem resolved_ops_leave_no_bindings_witness :
    bindingsFor 1 (P2Quote.run 1 [P2Quote.Ev.timerFire]).bindings = [] ∧
    bindingsFor 2 (P2Positions.run 2 [P2Positions.Ev.positionEnd]).bindings = [] ∧
    bindingsFor 3 (P2Summary.run 3 [P2Summary.Ev.timerFire]).bindings = [] ∧
    bindingsFor 4 (P2Order.run 4 [P2Order.Ev.timerFire]).bindings = [] := by
  refine ⟨?_, ?_, ?_, ?_⟩
  · exact (resolved_ops_leave_no_bindings 1 2 3 4 [P2Quote.Ev.timerFire]
      [P2Positions.Ev.positionEnd] [P2Summary.Ev.timerFire] [P2Order.Ev.timerFire]).1
      (by decide)
  · exact (resolved_ops_leave_no_bindings 1 2 3 4 [P2Quote.Ev.timerFire]
      [P2Positions.Ev.positionEnd] [P2Summary.Ev.timerFire] [P2Order.Ev.timerFire]).2.1
      (by decide)
  · exact (resolved_ops_leave_no_bindings 1 2 3 4 [P2Quote.Ev.timerFire]
      [P2Positions.Ev.positionEnd] [P2Summary.Ev.timerFire] [P2Order.Ev.timerFire]).2.2.1
      (by decide)
  · exact (resolved_ops_leave_no_bindings 1 2 3 4 [P2Quote.Ev.timerFire]
      [P2Positions.Ev.positionEnd] [P2Summary.Ev.timerFire] [P2Order.Ev.timerFire]).2.2.2
      (by decide)

/-- C3 counterexample: three retransmissions of the same bid tick (id
matching, positive price) drive part_002 getQuote to terminal: the
operation settles although only one distinct required field (bid) is
populated — duplicate updates of an already-populated field do advance
the operation toward termination. -/
theorem duplicate_ticks_reach_terminal :
    (P2Quote.run 5 [P2Quote.Ev.tickPrice 5 1 10, P2Quote.Ev.tickPrice 5 1 10,
        P2Quote.Ev.tickPrice 5 1 10]).settleCount = 1 ∧
    (P2Quote.run 5 [P2Quote.Ev.tickPrice 5 1 10, P2Quote.Ev.tickPrice 5 1 10,
        P2Quote.Ev.tickPrice 5 1 10]).quote.bid = some 10 ∧
    (P2Quote.run 5 [P2Quote.Ev.tickPrice 5 1 10, P2Quote.Ev.tickPrice 5 1 10,
        P2Quote.Ev.tickPrice 5 1 10]).quote.ask = none ∧
    (P2Quote.run 5 [P2Quote.Ev.tickPrice 5 1 10, P2Quote.Ev.tickPrice 5 1 10,
        P2Quote.Ev.tickPrice 5 1 10]).quote.last = none := by
  decide

/-- C3 (amended): the part_002 getQuote terminal predicate counts
events, not distinct fields: every bid tick with matching id and
positive price increments `priceReceived` — also when the bid field is
already populated, whose value it overwrites (merge by name,
last-write-wins) — and the operation settles exactly when that event
count reaches 3. -/
theorem getQuote_counts_events_not_fields (tid : Nat) (s : P2Quote.St) (p : ℚ)
    (hpend : P2Quote.Pending tid s) (hp : 0 < p) :
    ((P2Quote.step tid s (P2Quote.Ev.tickPrice tid 1 p)).priceReceived
        = s.priceReceived + 1) ∧
    ((P2Quote.step tid s (P2Quote.Ev.tickPrice tid 1 p)).quote.bid = some p) ∧
    (0 < (P2Quote.step tid s (P2Quote.Ev.tickPrice tid 1 p)).settleCount ↔
        3 ≤ s.priceReceived + 1) := by
  obtain ⟨hb, ht, hs, hc, ho⟩ := hpend
  by_cases h3 : 3 ≤ s.priceReceived + 1
  · refine ⟨?_, ?_, ?_⟩
    · simp [P2Quote.step, hb, hp, P2Quote.priceUpd, h3]
    · simp only [P2Quote.step, hb, P2Quote.priceUpd]
      simp only [List.mem_cons, Prod.mk.injEq, and_self, true_or, if_true, hp, and_true,
        if_pos]
      simp only [if_pos, h3]
      split <;> simp
    · simp [P2Quote.step, hb, hp, P2Quote.priceUpd, h3, hc]
  · refine ⟨?_, ?_, ?_⟩
    · simp [P2Quote.step, hb, hp, P2Quote.priceUpd, h3]
    · simp [P2Quote.step, hb, hp, P2Quote.priceUpd, h3]
    · simp [P2Quote.step, hb, hp, P2Quote.priceUpd, h3, hc]

/-- C3 witness: a first bid tick on a fresh operation increments the
count to 1, stores the bid, and does not settle. -/
theorem getQuote_counts_events_not_fields_witness :
    ((P2Quote.step 7 (P2Quote.init 7) (P2Quote.Ev.tickPrice 7 1 2)).priceReceived
        = (P2Quote.init 7).priceReceived + 1) ∧
    ((P2Quote.step 7 (P2Quote.init 7) (P2Quote.Ev.tickPrice 7 1 2)).quote.bid = some 2) ∧
    (0 < (P2Quote.step 7 (P2Quote.init 7) (P2Quote.Ev.tickPrice 7 1 2)).settleCount ↔
        3 ≤ (P2Quote.init 7).priceReceived + 1) :=
  getQuote_counts_events_not_fields 7 (P2Quote.init 7) 2 (P2Quote.q2_init_pending 7)
    (by norm_num)

/-- C4: partial-tolerant timeout policy of the cited operations.  For
part_001 getQuote and for getOptionGreeks, when the deadline expires on a
still-pending operation: a non-empty accumulator (dataPoints > 0,
dataReceived > 0) resolves successfully with the partial data, and an
empty accumulator rejects with the timeout error.  Concretely, a
part_002 getQuote holding 2 of its 3 required fields (bid and ask, no
last) at the deadline resolves successfully with those two fields
populated and the third absent. -/
theorem partial_timeout_policy (evs1 : List P1Quote.Ev) (evs2 : List GreeksOp.Ev) :
    ((P1Quote.run evs1).timeoutArmed = true → (P1Quote.run evs1).outcome = none →
      ((0 < (P1Quote.run evs1).dataPoints →
        (P1Quote.step (P1Quote.run evs1) P1Quote.Ev.timerFire).outcome
          = some (.ok (P1Quote.run evs1).quote)) ∧
       ((P1Quote.run evs1).dataPoints = 0 →
        (P1Quote.step (P1Quote.run evs1) P1Quote.Ev.timerFire).outcome
          = some (.error ())))) ∧
    ((GreeksOp.run evs2).timeoutArmed = true → (GreeksOp.run evs2).outcome = none →
      ((0 < (GreeksOp.run evs2).dataReceived →
        (GreeksOp.step (GreeksOp.run evs2) GreeksOp.Ev.timerFire).outcome
          = some (.ok (GreeksOp.run evs2).greeks)) ∧
       ((GreeksOp.run evs2).dataReceived = 0 →
        (GreeksOp.step (GreeksOp.run evs2) GreeksOp.Ev.timerFire).outcome
          = some (.error ())))) ∧
    (P2Quote.run 9 [P2Quote.Ev.tickPrice 9 1 10, P2Quote.Ev.tickPrice 9 2 11,
        P2Quote.Ev.timerFire]).outcome
      = some ⟨some 10, some 11, none, none, none, none, none, none, none, none⟩ := by
  refine ⟨?_, ?_, ?_⟩
  · intro harm hout
    constructor
    · intro hd
      simp [P1Quote.step, harm, hd, promiseSettle, hout]
    · intro hd
      simp [P1Quote.step, harm, hd, promiseSettle, hout]
  · intro harm hout
    constructor
    · intro hd
      simp [GreeksOp.step, harm, hd, promiseSettle, hout]
    · intro hd
      simp [GreeksOp.step, harm, hd, promiseSettle, hout]
  · decide

/-- C4 witness: a part_001 getQuote with one bid tick resolves with the
partial quote at the deadline; with no data at all, both cited operations
reject at the deadline. -/
theorem partial_timeout_policy_witness :
    (P1Quote.step (P1Quote.run [P1Quote.Ev.tickPrice 0 1 10]) P1Quote.Ev.timerFire).outcome
      = some (.ok (P1Quote.run [P1Quote.Ev.tickPrice 0 1 10]).quote) ∧
    (P1Quote.step (P1Quote.run []) P1Quote.Ev.timerFire).outcome = some (.error ()) ∧
    (GreeksOp.step (GreeksOp.run []) GreeksOp.Ev.timerFire).outcome = some (.error ()) := by
  refine ⟨?_, ?_, ?_⟩
  · exact ((partial_timeout_policy [P1Quote.Ev.tickPrice 0 1 10] []).1
      (by decide) (by decide)).1 (by decide)
  · exact ((partial_timeout_policy [] []).1 (by decide) (by decide)).2 (by decide)
  · exact ((partial_timeout_policy [] []).2.1 (by decide) (by decide)).2 (by decide)

/-- C5 counterexample: the part_001 getAccountSummary handler shadows
`reqId` and performs no id comparison, so an operation whose own id is 1
merges the key→value pair of an event tagged with id 2 into its
accumulator. -/
theorem summary_merges_foreign_id :
    (P1Summary.run 1
        [P1Summary.Ev.accountSummary 2 "DU12" "NetLiquidation" "100" "USD"]).summary
      = [("NetLiquidation", ("DU12", "100", "USD"))] := by
  decide

/-- C5 (amended): isolation holds for the part_002 summary handler,
which guards on `id === reqId`: every pair in a part_002
getAccountSummary accumulator originates from an accountSummary event
tagged with the operation's own id, so two concurrent part_002 summaries
with distinct ids never absorb each other's pairs; the part_001 handler
has no such guard and does merge foreign-tagged events. -/
theorem summary_isolation_by_id (r1 : Nat) (evs : List P2Summary.Ev)
    (tag : String) (v : P2Summary.Val)
    (hp : (tag, v) ∈ (P2Summary.run r1 evs).summary) :
    ∃ account value currency, v = (account, value, currency) ∧
      P2Summary.Ev.accountSummary r1 account tag value currency ∈ evs := by
  rcases P2Summary.sum2_foldl_summary_mem r1 evs (P2Summary.init r1) (tag, v) hp with h | h
  · simp [P2Summary.init] at h
  · obtain ⟨account, value, currency, hpair, hev⟩ := h
    refine ⟨account, value, currency, ?_, hev⟩
    have := congrArg Prod.snd hpair
    simpa using this

/-- C5 witness: a pair accumulated by a part_002 summary is traced back
to the event with the operation's own id that produced it. -/
theorem summary_isolation_by_id_witness :
    ∃ account value currency,
      (("ACC", "42", "USD") : P2Summary.Val) = (account, value, currency) ∧
      P2Summary.Ev.accountSummary 1 account "NetLiquidation" value currency
        ∈ [P2Summary.Ev.accountSummary 1 "ACC" "NetLiquidation" "42" "USD"] :=
  summary_isolation_by_id 1
    [P2Summary.Ev.accountSummary 1 "ACC" "NetLiquidation" "42" "USD"]
    "NetLiquidation" ("ACC", "42", "USD") (by decide)

/-- C7 counterexample: a part_002 getPositions operation that receives
one position row event (with quantity 0) followed by the end marker
resolves with zero rows and count 0, not with the one received row — the
handler drops zero-quantity rows. -/
theorem snapshot_drops_zero_row :
    (P2Positions.run 7 [P2Positions.Ev.position ⟨"U1", "AAPL", "STK", 0, 50⟩,
        P2Positions.Ev.positionEnd]).outcome = some ([], 0) := by
  decide

/-- C7 (amended): a snapshot-list operation receiving row events followed
by an end marker before its timeout resolves on that end event with the
rows its handler retained, in arrival order, and a count equal to the
retained rows: part_001 getPositions keeps every row (k rows in, k rows
out), while part_002 getPositions keeps exactly the rows with non-zero
quantity; the end event carries no correlation id and any end event is
terminal. -/
theorem snapshot_list_resolution (reqId : Nat) (rows : List PosRow) :
    (P1Positions.run
        (rows.map P1Positions.Ev.position ++ [P1Positions.Ev.positionEnd])).outcome
      = some (.ok (rows, rows.length)) ∧
    (P2Positions.run reqId
        (rows.map P2Positions.Ev.position ++ [P2Positions.Ev.positionEnd])).outcome
      = some (rows.filter (fun r => r.pos ≠ 0),
              (rows.filter (fun r => r.pos ≠ 0)).length) :=
  ⟨P1Positions.pos1_snapshot rows, P2Positions.pos2_snapshot reqId rows⟩
